import Mathlib

/-!
Shallow embedding of the AI_web_crawler repository core
(models/site.py, utils/data_utils.py, utils/scraper_utils.py).

Python values flowing through the crawler (JSON scalars produced by the
extraction engine) are modelled by `Value`; a candidate mapping (a Python
dict produced by json.loads) is an association list with unique keys,
`Candidate`.  The seen-name set is a `Finset Value` (Python adds whatever
value sits under the name key, not necessarily a string).  Network fetch
results are modelled by `FetchResult`, whose `extracted_content` field is
the already-parsed JSON payload (`none` models a falsy/absent payload).
The Python functions are translated one to one; the dict subscript
`info["name"]`, which can raise KeyError, is modelled in the `Except`
monad with the error payload carrying the seen-set at raise time (the
Python set has already been mutated when the exception escapes).
-/

set_option autoImplicit false

namespace Crawler

/-- A Python scalar value as produced by json.loads. -/
inductive Value where
  | str (s : String)
  | int (n : Int)
  | float (q : Rat)
  | bool (b : Bool)
  | null
  deriving DecidableEq

/-- A candidate mapping: a Python dict from string keys to values. -/
abbrev Candidate := List (String × Value)

/-- Dict lookup, first binding wins (keys are unique in a Python dict). -/
def lookupKey : Candidate → String → Option Value
  | [], _ => none
  | kv :: rest, k => if kv.1 = k then some kv.2 else lookupKey rest k

/-- Python membership test: key in dict. -/
def hasKey (c : Candidate) (k : String) : Bool :=
  (lookupKey c k).isSome

/-- Python dict.pop of a key (removes every binding of the key). -/
def eraseKey : Candidate → String → Candidate
  | [], _ => []
  | kv :: rest, k => if kv.1 = k then eraseKey rest k else kv :: eraseKey rest k

/-- models/site.py: the Site record schema, seven scalar fields. -/
structure Site where
  name : String
  location : String
  price : String
  capacity : String
  rating : Rat
  reviews : Int
  description : String
  deriving DecidableEq

/-- Site.model_fields.keys(): the field names in declaration order. -/
def siteFieldnames : List String :=
  ["name", "location", "price", "capacity", "rating", "reviews", "description"]

/-- data_utils.is_duplicate: pure membership test against the seen set. -/
def is_duplicate (site_name : Value) (seen_values : Finset Value) : Bool :=
  decide (site_name ∈ seen_values)

/-- data_utils.is_complete_site: all(key in site for key in required_keys). -/
def is_complete_site (site : Candidate) (required_keys : List String) : Bool :=
  required_keys.all (fun key => hasKey site key)

/-- How Python str renders a scalar for a CSV cell (None prints as empty). -/
def pyStr : Value → String
  | Value.str s => s
  | Value.int n => toString n
  | Value.float q => toString q
  | Value.bool true => "True"
  | Value.bool false => "False"
  | Value.null => ""

/-- A CSV cell for field f of record r: dict.get of f with restval None. -/
def csvCell (r : Candidate) (f : String) : String :=
  match lookupKey r f with
  | some v => pyStr v
  | none => ""

/-- csv.DictWriter row conversion: raises ValueError when the record has a
key outside the fieldnames, otherwise renders one cell per fieldname. -/
def dictToRow (fieldnames : List String) (r : Candidate) : Except Unit (List String) :=
  if r.all (fun kv => fieldnames.contains kv.1) then
    Except.ok (fieldnames.map (fun f => csvCell r f))
  else
    Except.error ()

/-- csv.DictWriter.writerows: writes rows one at a time, stopping at the
first record that raises; returns the rows actually written and whether
all records were written. -/
def writeRowsFrom (fieldnames : List String) : List Candidate → List (List String) → List (List String) × Bool
  | [], acc => (acc, true)
  | r :: rs, acc =>
    match dictToRow fieldnames r with
    | Except.error _ => (acc, false)
    | Except.ok row => writeRowsFrom fieldnames rs (acc ++ [row])

/-- The contents of the target file: a list of CSV rows, or no file. -/
abbrev FileState := Option (List (List String))

/-- Observable outcome of save_keys_to_csv. -/
inductive SaveOutcome where
  | noData
  | saved (count : Nat)
  | raisedValueError
  deriving DecidableEq

/-- data_utils.save_keys_to_csv: on an empty list, print and return without
touching the file; otherwise open for writing (truncating), write the
header of Site field names, then the rows; a ValueError from the writer
leaves the partially written file behind (the with-block closes it). -/
def save_keys_to_csv (valid_infos : List Candidate) (file : FileState) : FileState × SaveOutcome :=
  if valid_infos = [] then
    (file, SaveOutcome.noData)
  else
    let result := writeRowsFrom siteFieldnames valid_infos []
    (some (siteFieldnames :: result.1),
     if result.2 then SaveOutcome.saved valid_infos.length else SaveOutcome.raisedValueError)

/-- Result object of one crawler.arun call.  extracted_content is the
parsed JSON payload; none models a missing or falsy payload. -/
structure FetchResult where
  success : Bool
  cleaned_html : String
  error_message : String
  extracted_content : Option (List Candidate)
  deriving DecidableEq

/-- Diagnostics printed by check_no_results. -/
inductive LogEvent where
  | probeCheckError (msg : String)
  deriving DecidableEq

/-- Does the first character list begin with the second? -/
def beginsWith : List Char → List Char → Bool
  | _, [] => true
  | [], _ :: _ => false
  | a :: as, b :: bs => (a == b) && beginsWith as bs

/-- Does pat occur contiguously inside the character list? -/
def occursIn (pat : List Char) : List Char → Bool
  | [] => beginsWith [] pat
  | c :: cs => beginsWith (c :: cs) pat || occursIn pat cs

/-- Does s contain pat as a substring (Python in on strings)? -/
def containsSubstring (s pat : String) : Bool :=
  occursIn pat.data s.data

/-- scraper_utils.check_no_results, given the probe fetch result: returns
whether the no-results marker was found, together with the log lines
printed.  Note the source prints its error line under result.success when
the marker is absent, and prints nothing when the probe failed. -/
def check_no_results (result : FetchResult) : Bool × List LogEvent :=
  if result.success then
    if containsSubstring result.cleaned_html "No Results Found" then
      (true, [])
    else
      (false, [LogEvent.probeCheckError result.error_message])
  else
    (false, [])

/-- Loop body of fetch_and_process_page for one candidate: strip a benign
error flag equal to False, skip incomplete candidates, skip duplicates,
otherwise record the name as seen and append the candidate.  The subscript
info["name"] raises KeyError when the key is absent; the error payload is
the seen-set at raise time. -/
def processInfo (required_keys : List String) (st : List Candidate × Finset Value) (info : Candidate) :
    Except (Finset Value) (List Candidate × Finset Value) :=
  let info := if lookupKey info "error" = some (Value.bool false) then eraseKey info "error" else info
  if is_complete_site info required_keys = false then
    Except.ok st
  else
    match lookupKey info "name" with
    | none => Except.error st.2
    | some name =>
      if is_duplicate name st.2 then
        Except.ok st
      else
        Except.ok (st.1 ++ [info], insert name st.2)

/-- The processing loop of fetch_and_process_page over all candidates. -/
def processAll (required_keys : List String) : List Candidate → (List Candidate × Finset Value) → Except (Finset Value) (List Candidate × Finset Value)
  | [], st => Except.ok st
  | info :: rest, st =>
    match processInfo required_keys st info with
    | Except.error s => Except.error s
    | Except.ok st2 => processAll required_keys rest st2

/-- scraper_utils.fetch_and_process_page, given the two fetch results (the
probe and the extraction fetch), the required keys and the seen-name set.
Returns the accepted records, the terminal flag, and the seen-name set
after the call (Python mutates it in place). -/
def fetch_and_process_page (probeResult extractResult : FetchResult)
    (required_keys : List String) (seen_names : Finset Value) :
    Except (Finset Value) (List Candidate × Bool × Finset Value) :=
  if (check_no_results probeResult).1 then
    Except.ok ([], true, seen_names)
  else
    match extractResult.success, extractResult.extracted_content with
    | true, some extracted_data =>
      if extracted_data = [] then
        Except.ok ([], false, seen_names)
      else
        match processAll required_keys extracted_data ([], seen_names) with
        | Except.error s => Except.error s
        | Except.ok st =>
          if st.1 = [] then
            Except.ok ([], false, st.2)
          else
            Except.ok (st.1, false, st.2)
    | _, _ => Except.ok ([], false, seen_names)

/-- The name a record contributes to the seen set (total version of the
subscript, only applied to accepted records, which always carry a name). -/
def acceptedName (c : Candidate) : Value :=
  (lookupKey c "name").getD Value.null

/-- One call of the driver loop: the fetch results the network hands back
for that page, and the required keys passed down. -/
structure CallInput where
  probe : FetchResult
  extract : FetchResult
  required : List String
  deriving DecidableEq

/-- A crawl run: fetch_and_process_page invoked once per call input,
threading the seen set, concatenating accepted records.  An unhandled
KeyError aborts the run (its partially accepted records are lost). -/
def runCalls : List CallInput → Finset Value → List Candidate × Finset Value
  | [], seen => ([], seen)
  | c :: cs, seen =>
    match fetch_and_process_page c.probe c.extract c.required seen with
    | Except.error s => ([], s)
    | Except.ok (recs, _, seen2) =>
      let rest := runCalls cs seen2
      (recs ++ rest.1, rest.2)

/-- Boolean success test on Except. -/
def exceptIsOk {ε α : Type} : Except ε α → Bool
  | Except.ok _ => true
  | Except.error _ => false

instance exceptDecEq {ε α : Type} [DecidableEq ε] [DecidableEq α] :
    DecidableEq (Except ε α) := fun x y =>
  match x, y with
  | Except.error a, Except.error b =>
    if h : a = b then isTrue (by rw [h]) else isFalse (fun hc => h (Except.error.inj hc))
  | Except.error _, Except.ok _ => isFalse (fun hc => Except.noConfusion hc)
  | Except.ok _, Except.error _ => isFalse (fun hc => Except.noConfusion hc)
  | Except.ok a, Except.ok b =>
    if h : a = b then isTrue (by rw [h]) else isFalse (fun hc => h (Except.ok.inj hc))

/-! Concrete data used to instantiate the theorems. -/

/-- A well formed extracted record carrying all seven schema fields. -/
def siteRec : Candidate :=
  [("name", Value.str "Alpha Hall"), ("location", Value.str "12 Main St"),
   ("price", Value.str "500"), ("capacity", Value.str "120"),
   ("rating", Value.float 4), ("reviews", Value.int 37),
   ("description", Value.str "A bright venue.")]

/-- A record with all seven schema fields but an empty string as name. -/
def emptyNameRec : Candidate :=
  [("name", Value.str ""), ("location", Value.str "12 Main St"),
   ("price", Value.str "500"), ("capacity", Value.str "120"),
   ("rating", Value.float 4), ("reviews", Value.int 37),
   ("description", Value.str "A bright venue.")]

/-- A complete record still carrying an error key whose value is True, so
the flag is never stripped and survives into the record. -/
def extraKeyRec : Candidate :=
  siteRec ++ [("error", Value.bool true)]

/-- An otherwise complete record carrying an error key equal to False. -/
def errorFalseRec : Candidate :=
  ("error", Value.bool false) :: siteRec

/-- A successful probe fetch of a page without the no-results marker. -/
def probeOkPage : FetchResult :=
  ⟨true, "venue listing", "", none⟩

/-- A successful probe fetch of a page showing the no-results marker. -/
def probeNoResults : FetchResult :=
  ⟨true, "sorry, No Results Found here", "", none⟩

/-- A failed probe fetch. -/
def probeDown : FetchResult :=
  ⟨false, "", "connection refused", none⟩

/-- An extraction fetch producing one single-key candidate named A. -/
def extractOne : FetchResult :=
  ⟨true, "", "", some [[("name", Value.str "A")]]⟩

/-- An extraction fetch producing one candidate without a name key. -/
def extractNoName : FetchResult :=
  ⟨true, "", "", some [[("location", Value.str "x")]]⟩

/-! Helper lemmas about the embedded dictionary operations. -/

theorem hasKey_iff (c : Candidate) (k : String) :
    hasKey c k = true ↔ k ∈ c.map Prod.fst := by
  induction c with
  | nil => simp [hasKey, lookupKey]
  | cons kv rest ih =>
    simp only [hasKey, lookupKey] at ih ⊢
    by_cases h : kv.1 = k
    · simp [h]
    · have h2 : ¬ k = kv.1 := fun hh => h hh.symm
      simp [h, h2, ih]

theorem hasKey_eraseKey_self (c : Candidate) (k : String) :
    hasKey (eraseKey c k) k = false := by
  induction c with
  | nil => simp [hasKey, eraseKey, lookupKey]
  | cons kv rest ih =>
    by_cases h : kv.1 = k
    · simpa [eraseKey, h] using ih
    · simpa [eraseKey, h, hasKey, lookupKey] using ih

theorem hasKey_eraseKey_le (c : Candidate) (j k : String)
    (h : hasKey c k = false) : hasKey (eraseKey c j) k = false := by
  induction c with
  | nil => simpa [eraseKey] using h
  | cons kv rest ih =>
    by_cases hk : kv.1 = k
    · simp [hasKey, lookupKey, hk] at h
    · have h2 : hasKey rest k = false := by simpa [hasKey, lookupKey, hk] using h
      by_cases hj : kv.1 = j
      · simpa [eraseKey, hj] using ih h2
      · simpa [eraseKey, hj, hasKey, lookupKey, hk] using ih h2

theorem is_complete_site_hasKey (site : Candidate) (required_keys : List String) (k : String)
    (hc : is_complete_site site required_keys = true) (hk : k ∈ required_keys) :
    hasKey site k = true := by
  simp only [is_complete_site, List.all_eq_true] at hc
  exact hc k hk

theorem is_complete_site_false_of_missing (site : Candidate) (required_keys : List String) (k : String)
    (hk : k ∈ required_keys) (hm : hasKey site k = false) :
    is_complete_site site required_keys = false := by
  rcases Bool.eq_false_or_eq_true (is_complete_site site required_keys) with h | h
  · rw [is_complete_site_hasKey site required_keys k h hk] at hm
    exact absurd hm (by simp)
  · exact h

/-! Structural lemmas about the candidate processing loop. -/

theorem processInfo_skip_incomplete (req : List String) (st : List Candidate × Finset Value)
    (info : Candidate) (k : String) (hk : k ∈ req) (hm : hasKey info k = false) :
    processInfo req st info = Except.ok st := by
  have hm2 : hasKey
      (if lookupKey info "error" = some (Value.bool false) then eraseKey info "error" else info)
      k = false := by
    split
    · exact hasKey_eraseKey_le info "error" k hm
    · exact hm
  simp [processInfo, is_complete_site_false_of_missing _ req k hk hm2]

theorem processInfo_ok_cases (req : List String) (acc : List Candidate) (s : Finset Value)
    (info : Candidate) (st2 : List Candidate × Finset Value)
    (h : processInfo req (acc, s) info = Except.ok st2) :
    st2 = (acc, s) ∨
      ∃ i2 nm, lookupKey i2 "name" = some nm ∧ nm ∉ s ∧ st2 = (acc ++ [i2], insert nm s) := by
  simp only [processInfo] at h
  generalize (if lookupKey info "error" = some (Value.bool false) then eraseKey info "error" else info) = i2 at h
  split at h
  · exact Or.inl (Except.ok.inj h).symm
  · split at h
    · exact Except.noConfusion h
    next nm heq =>
      split at h
      · exact Or.inl (Except.ok.inj h).symm
      next hdup =>
        right
        refine ⟨_, nm, heq, ?_, (Except.ok.inj h).symm⟩
        simpa [is_duplicate] using hdup

theorem processInfo_error_eq (req : List String) (acc : List Candidate) (s : Finset Value)
    (info : Candidate) (s2 : Finset Value)
    (h : processInfo req (acc, s) info = Except.error s2) : s2 = s := by
  simp only [processInfo] at h
  generalize (if lookupKey info "error" = some (Value.bool false) then eraseKey info "error" else info) = i2 at h
  split at h
  · exact Except.noConfusion h
  · split at h
    · exact (Except.error.inj h).symm
    · split at h
      · exact Except.noConfusion h
      · exact Except.noConfusion h

theorem processAll_ok_spec (req : List String) (l : List Candidate) :
    ∀ (acc : List Candidate) (s : Finset Value) (acc2 : List Candidate) (s2 : Finset Value),
      processAll req l (acc, s) = Except.ok (acc2, s2) →
      ∃ d : List Candidate,
        acc2 = acc ++ d ∧
        s2 = s ∪ (d.map acceptedName).toFinset ∧
        (d.map acceptedName).Nodup ∧
        ∀ v ∈ d.map acceptedName, v ∉ s := by
  induction l with
  | nil =>
    intro acc s acc2 s2 h
    simp only [processAll] at h
    obtain ⟨h1, h2⟩ := Prod.mk.inj (Except.ok.inj h)
    exact ⟨[], by simp [← h1], by simp [← h2], by simp, by simp⟩
  | cons info rest ih =>
    intro acc s acc2 s2 h
    simp only [processAll] at h
    cases hpi : processInfo req (acc, s) info with
    | error s3 => rw [hpi] at h; exact Except.noConfusion h
    | ok st2 =>
      rw [hpi] at h
      rcases processInfo_ok_cases req acc s info st2 hpi with hcase | ⟨i2, nm, hlk, hnm, hcase⟩
      · subst hcase
        exact ih acc s acc2 s2 h
      · subst hcase
        obtain ⟨d, hd1, hd2, hd3, hd4⟩ := ih (acc ++ [i2]) (insert nm s) acc2 s2 h
        have han : acceptedName i2 = nm := by simp [acceptedName, hlk]
        refine ⟨i2 :: d, ?_, ?_, ?_, ?_⟩
        · simpa using hd1
        · rw [hd2]
          simp [han, Finset.insert_union, Finset.union_insert]
        · simp only [List.map_cons, List.nodup_cons, han]
          exact ⟨fun hmem => hd4 nm hmem (Finset.mem_insert_self nm s), hd3⟩
        · intro v hv
          simp only [List.map_cons, List.mem_cons, han] at hv
          rcases hv with rfl | hv
          · exact hnm
          · exact fun hs => hd4 v hv (Finset.mem_insert.mpr (Or.inr hs))

theorem processAll_error_superset (req : List String) (l : List Candidate) :
    ∀ (acc : List Candidate) (s : Finset Value) (s2 : Finset Value),
      processAll req l (acc, s) = Except.error s2 → s ⊆ s2 := by
  induction l with
  | nil =>
    intro acc s s2 h
    simp only [processAll] at h
    exact Except.noConfusion h
  | cons info rest ih =>
    intro acc s s2 h
    simp only [processAll] at h
    cases hpi : processInfo req (acc, s) info with
    | error s3 =>
      rw [hpi] at h
      have e1 : s3 = s := processInfo_error_eq req acc s info s3 hpi
      have e2 : s3 = s2 := Except.error.inj h
      rw [← e1, ← e2]
    | ok st2 =>
      rw [hpi] at h
      rcases processInfo_ok_cases req acc s info st2 hpi with hcase | ⟨i2, nm, hlk, hnm, hcase⟩
      · subst hcase
        exact ih acc s s2 h
      · subst hcase
        intro v hv
        exact ih (acc ++ [i2]) (insert nm s) s2 h (Finset.mem_insert.mpr (Or.inr hv))

theorem fetch_triv_case (seen : Finset Value) (fl : Bool) (recs : List Candidate) (flag : Bool)
    (seen2 : Finset Value)
    (h : (Except.ok ([], fl, seen) :
        Except (Finset Value) (List Candidate × Bool × Finset Value)) =
      Except.ok (recs, flag, seen2)) :
    seen2 = seen ∪ (recs.map acceptedName).toFinset ∧
    (recs.map acceptedName).Nodup ∧
    ∀ v ∈ recs.map acceptedName, v ∉ seen := by
  simp only [Except.ok.injEq, Prod.mk.injEq] at h
  obtain ⟨h1, h2, h3⟩ := h
  subst h1
  subst h3
  simp

theorem fetch_ok_spec (p e : FetchResult) (req : List String) (seen : Finset Value)
    (recs : List Candidate) (flag : Bool) (seen2 : Finset Value)
    (h : fetch_and_process_page p e req seen = Except.ok (recs, flag, seen2)) :
    seen2 = seen ∪ (recs.map acceptedName).toFinset ∧
    (recs.map acceptedName).Nodup ∧
    ∀ v ∈ recs.map acceptedName, v ∉ seen := by
  simp only [fetch_and_process_page] at h
  split at h
  · exact fetch_triv_case seen _ recs flag seen2 h
  · split at h
    next extracted_data hsuc hcont =>
      split at h
      · exact fetch_triv_case seen _ recs flag seen2 h
      · split at h
        next s3 hpa =>
          exact Except.noConfusion h
        next st hpa =>
          obtain ⟨d, hd1, hd2, hd3, hd4⟩ :=
            processAll_ok_spec req extracted_data [] seen st.1 st.2 hpa
          split at h
          next hempty =>
            simp only [Except.ok.injEq, Prod.mk.injEq] at h
            obtain ⟨h1, h2, h3⟩ := h
            subst h1
            subst h3
            have hd0 : d = [] := by
              have h4 := hd1
              rw [hempty] at h4
              simpa using h4.symm
            subst hd0
            exact ⟨by simpa using hd2, by simp, by simp⟩
          next hne =>
            simp only [Except.ok.injEq, Prod.mk.injEq] at h
            obtain ⟨h1, h2, h3⟩ := h
            subst h1
            subst h3
            have hd0 : st.1 = d := by simpa using hd1
            rw [hd0]
            exact ⟨hd2, hd3, hd4⟩
    all_goals exact fetch_triv_case seen _ recs flag seen2 h

theorem fetch_error_superset (p e : FetchResult) (req : List String) (seen : Finset Value)
    (s2 : Finset Value) (h : fetch_and_process_page p e req seen = Except.error s2) :
    seen ⊆ s2 := by
  simp only [fetch_and_process_page] at h
  split at h
  · exact Except.noConfusion h
  · split at h
    next extracted_data hsuc hcont =>
      split at h
      · exact Except.noConfusion h
      · split at h
        next s3 hpa =>
          have hsub := processAll_error_superset req extracted_data [] seen s3 hpa
          exact (Except.error.inj h) ▸ hsub
        next st hpa =>
          split at h
          · exact Except.noConfusion h
          · exact Except.noConfusion h
    all_goals exact Except.noConfusion h

theorem runCalls_spec (calls : List CallInput) :
    ∀ seen : Finset Value,
      ((runCalls calls seen).1.map acceptedName).Nodup ∧
      (∀ v ∈ (runCalls calls seen).1.map acceptedName, v ∉ seen) ∧
      seen ⊆ (runCalls calls seen).2 ∧
      ∀ v ∈ (runCalls calls seen).1.map acceptedName, v ∈ (runCalls calls seen).2 := by
  induction calls with
  | nil =>
    intro seen
    simp [runCalls]
  | cons c cs ih =>
    intro seen
    simp only [runCalls]
    split
    next s hf =>
      refine ⟨by simp, by simp, ?_, by simp⟩
      exact fetch_error_superset c.probe c.extract c.required seen s hf
    next recs fl seen2 hf =>
      obtain ⟨hu, hn2, hsub2, hin2⟩ := ih seen2
      obtain ⟨hseen2, hnodup, hnotin⟩ :=
        fetch_ok_spec c.probe c.extract c.required seen recs fl seen2 hf
      have hsub : seen ⊆ seen2 := by
        rw [hseen2]
        intro v hv
        exact Finset.mem_union_left _ hv
      have hrecs_in : ∀ v ∈ recs.map acceptedName, v ∈ seen2 := by
        intro v hv
        rw [hseen2]
        exact Finset.mem_union_right _ (List.mem_toFinset.mpr hv)
      refine ⟨?_, ?_, hsub.trans hsub2, ?_⟩
      · rw [List.map_append]
        refine List.Nodup.append hnodup hu ?_
        intro v hv1 hv2
        exact hn2 v hv2 (hrecs_in v hv1)
      · intro v hv
        rw [List.map_append, List.mem_append] at hv
        rcases hv with hv | hv
        · exact hnotin v hv
        · exact fun hs => hn2 v hv (hsub hs)
      · intro v hv
        rw [List.map_append, List.mem_append] at hv
        rcases hv with hv | hv
        · exact hsub2 (hrecs_in v hv)
        · exact hin2 v hv

/-! Helper lemmas about the CSV writer. -/

theorem dictToRow_ok (fieldnames : List String) (r : Candidate)
    (hr : ∀ kv ∈ r, kv.1 ∈ fieldnames) :
    dictToRow fieldnames r = Except.ok (fieldnames.map (fun f => csvCell r f)) := by
  have hall : r.all (fun kv => fieldnames.contains kv.1) = true := by
    rw [List.all_eq_true]
    intro kv hkv
    simp [List.contains, hr kv hkv]
  simp only [dictToRow]
  rw [if_pos hall]

theorem dictToRow_error (fieldnames : List String) (r : Candidate) (kv0 : String × Value)
    (hin : kv0 ∈ r) (hout : kv0.1 ∉ fieldnames) :
    dictToRow fieldnames r = Except.error () := by
  have hall : r.all (fun kv => fieldnames.contains kv.1) = false := by
    rw [List.all_eq_false]
    exact ⟨kv0, hin, by simp [List.contains, hout]⟩
  simp only [dictToRow]
  rw [if_neg (by rw [hall]; decide)]

theorem writeRowsFrom_all_ok (fieldnames : List String) (l : List Candidate)
    (hl : ∀ r ∈ l, ∀ kv ∈ r, kv.1 ∈ fieldnames) :
    ∀ acc : List (List String),
      writeRowsFrom fieldnames l acc =
        (acc ++ l.map (fun r => fieldnames.map (fun f => csvCell r f)), true) := by
  induction l with
  | nil =>
    intro acc
    simp [writeRowsFrom]
  | cons r rs ih =>
    intro acc
    have hr := dictToRow_ok fieldnames r (hl r (List.mem_cons_self r rs))
    simp only [writeRowsFrom, hr]
    rw [ih (fun r2 hr2 => hl r2 (List.mem_cons_of_mem _ hr2))]
    simp

theorem writeRowsFrom_stops_at_bad (fieldnames : List String) (bad : Candidate)
    (kv0 : String × Value) (hin : kv0 ∈ bad) (hout : kv0.1 ∉ fieldnames)
    (rest : List Candidate) (good : List Candidate)
    (hgood : ∀ r ∈ good, ∀ kv ∈ r, kv.1 ∈ fieldnames) :
    ∀ acc : List (List String),
      writeRowsFrom fieldnames (good ++ bad :: rest) acc =
        (acc ++ good.map (fun r => fieldnames.map (fun f => csvCell r f)), false) := by
  induction good with
  | nil =>
    intro acc
    have hb := dictToRow_error fieldnames bad kv0 hin hout
    simp [writeRowsFrom, hb]
  | cons r rs ih =>
    intro acc
    have hr := dictToRow_ok fieldnames r (hgood r (List.mem_cons_self r rs))
    simp only [List.cons_append, writeRowsFrom, hr, List.append_eq]
    rw [ih (fun r2 hr2 => hgood r2 (List.mem_cons_of_mem _ hr2))]
    simp

/-! Claim theorems. -/

/-- C1: whenever the probe fetch succeeds and the retrieved page's cleaned
text contains the marker phrase No Results Found, fetch_and_process_page
returns the empty record list with terminal flag true and the seen-name
set unchanged; the extraction fetch result is universally quantified and
absent from the conclusion, so the outcome never consults the extraction
fetch. -/
theorem fetch_terminal_on_no_results (probeResult extractResult : FetchResult)
    (required_keys : List String) (seen_names : Finset Value)
    (hs : probeResult.success = true)
    (hm : containsSubstring probeResult.cleaned_html "No Results Found" = true) :
    fetch_and_process_page probeResult extractResult required_keys seen_names =
      Except.ok ([], true, seen_names) := by
  simp [fetch_and_process_page, check_no_results, hs, hm]

/-- Witness for C1 on a concrete marker page. -/
theorem fetch_terminal_on_no_results_witness :
    probeNoResults.success = true ∧
    containsSubstring probeNoResults.cleaned_html "No Results Found" = true ∧
    fetch_and_process_page probeNoResults extractOne ["name"] ∅ =
      Except.ok ([], true, ∅) :=
  ⟨rfl, by decide,
    fetch_terminal_on_no_results probeNoResults extractOne ["name"] ∅ rfl (by decide)⟩

/-- C3: is_complete_site is true exactly when every required key occurs
among the candidate's keys; values are never inspected, so falsy values
such as a zero count still count as complete. -/
theorem is_complete_site_iff_keys (C : Candidate) (R : List String) :
    is_complete_site C R = true ↔ ∀ k ∈ R, k ∈ C.map Prod.fst := by
  simp only [is_complete_site, List.all_eq_true]
  constructor
  · intro h k hk
    exact (hasKey_iff C k).mp (h k hk)
  · intro h k hk
    exact (hasKey_iff C k).mpr (h k hk)

/-- C6: evaluation at the failing input. A failed probe prints no log line
(first conjunct), while the error line is printed when the probe succeeds
without the marker (second conjunct); a failed probe is still not
terminal and the extraction fetch proceeds and can accept records (third
conjunct). -/
theorem check_no_results_probe_failure_eval :
    check_no_results probeDown = (false, []) ∧
    check_no_results probeOkPage = (false, [LogEvent.probeCheckError ""]) ∧
    fetch_and_process_page probeDown extractOne ["name"] ∅ =
      Except.ok ([[("name", Value.str "A")]], false, {Value.str "A"}) := by
  refine ⟨by decide, by decide, by decide⟩

/-- C4: a candidate missing a required key is excluded from the accepted
output and never reaches the seen set: the whole call behaves exactly as
if the candidate were absent from the extraction payload, so an
identically named complete candidate, later on the same page or on a
later page, is still accepted. -/
theorem fetch_ignores_incomplete_candidate (p : FetchResult) (sc : Bool) (ch em : String)
    (l1 l2 : List Candidate) (bad : Candidate) (req : List String) (seen : Finset Value)
    (k : String) (hk : k ∈ req) (hm : hasKey bad k = false) :
    fetch_and_process_page p ⟨sc, ch, em, some (l1 ++ bad :: l2)⟩ req seen =
      fetch_and_process_page p ⟨sc, ch, em, some (l1 ++ l2)⟩ req seen := by
  have hskip : ∀ st : List Candidate × Finset Value, processInfo req st bad = Except.ok st :=
    fun st => processInfo_skip_incomplete req st bad k hk hm
  have hpa : ∀ (g : List Candidate) (st : List Candidate × Finset Value),
      processAll req (g ++ bad :: l2) st = processAll req (g ++ l2) st := by
    intro g
    induction g with
    | nil =>
      intro st
      simp [processAll, hskip st]
    | cons i rest ih =>
      intro st
      simp only [List.cons_append, processAll]
      cases hpi : processInfo req st i with
      | error s => rfl
      | ok st2 => exact ih st2
  by_cases hnr : (check_no_results p).1 = true
  · simp [fetch_and_process_page, hnr]
  · cases sc with
    | false => simp [fetch_and_process_page, hnr]
    | true =>
      simp only [fetch_and_process_page, hnr, if_false]
      rw [hpa l1 ([], seen)]
      have hne : l1 ++ bad :: l2 ≠ [] := by simp
      rw [if_neg hne]
      by_cases h0 : l1 ++ l2 = []
      · rw [if_pos h0, h0]
        simp [processAll]
      · rw [if_neg h0]

/-- Witness for C4: a candidate missing the description key placed before
a complete candidate; the call result coincides with the payload without
it. -/
theorem fetch_ignores_incomplete_candidate_witness :
    "description" ∈ siteFieldnames ∧
    hasKey [("name", Value.str "Alpha Hall")] "description" = false ∧
    fetch_and_process_page probeOkPage
        ⟨true, "", "", some ([] ++ [("name", Value.str "Alpha Hall")] :: [siteRec])⟩
        siteFieldnames ∅ =
      fetch_and_process_page probeOkPage ⟨true, "", "", some ([] ++ [siteRec])⟩
        siteFieldnames ∅ :=
  ⟨by decide, by decide,
    fetch_ignores_incomplete_candidate probeOkPage true "" "" [] [siteRec]
      [("name", Value.str "Alpha Hall")] siteFieldnames ∅ "description"
      (by decide) (by decide)⟩

/-- C5: for every call that completes normally, the seen-name set after
the call equals the set before the call united with exactly the names of
the records accepted by the call, and in particular the set only ever
grows; skipped candidates contribute nothing. -/
theorem fetch_seen_names_exact_union (p e : FetchResult) (req : List String)
    (seen : Finset Value) (recs : List Candidate) (flag : Bool) (seen2 : Finset Value)
    (h : fetch_and_process_page p e req seen = Except.ok (recs, flag, seen2)) :
    seen2 = seen ∪ (recs.map acceptedName).toFinset ∧ seen ⊆ seen2 := by
  obtain ⟨h1, h2, h3⟩ := fetch_ok_spec p e req seen recs flag seen2 h
  refine ⟨h1, ?_⟩
  rw [h1]
  intro v hv
  exact Finset.mem_union_left _ hv

/-- Witness for C5 at a concrete accepting call. -/
theorem fetch_seen_names_exact_union_witness :
    fetch_and_process_page probeOkPage extractOne ["name"] ∅ =
      Except.ok ([[("name", Value.str "A")]], false, {Value.str "A"}) ∧
    (({Value.str "A"} : Finset Value) =
        ∅ ∪ (([[("name", Value.str "A")]].map acceptedName).toFinset) ∧
      (∅ : Finset Value) ⊆ {Value.str "A"}) :=
  ⟨by decide,
    fetch_seen_names_exact_union probeOkPage extractOne ["name"] ∅
      [[("name", Value.str "A")]] false {Value.str "A"} (by decide)⟩

/-- C7 counterexample: a run of a single call accepts a record whose name
is the empty string, refuting the non-emptiness half of the claimed
invariant. -/
theorem run_accepts_empty_name :
    (runCalls [⟨probeOkPage, ⟨true, "", "", some [emptyNameRec]⟩, siteFieldnames⟩]
        ∅).1.map acceptedName = [Value.str ""] := by
  decide

/-- C7 amended: in any run of fetch_and_process_page calls threading one
seen-name set from empty, the names of all accepted records are pairwise
distinct across the whole run; the source enforces uniqueness through the
duplicate check but never enforces non-emptiness of the name. -/
theorem run_accepted_names_nodup (calls : List CallInput) :
    ((runCalls calls ∅).1.map acceptedName).Nodup :=
  (runCalls_spec calls ∅).1

/-- C8: an error key holding False on an otherwise complete candidate is
stripped before the completeness check; the candidate is accepted as the
stripped record with its name recorded, and the stripped record no longer
carries the error key, so the key cannot reach persisted output. -/
theorem error_false_flag_stripped (req : List String) (acc : List Candidate)
    (seen : Finset Value) (c : Candidate) (nm : Value)
    (he : lookupKey c "error" = some (Value.bool false))
    (hcomp : is_complete_site (eraseKey c "error") req = true)
    (hname : lookupKey (eraseKey c "error") "name" = some nm)
    (hdup : nm ∉ seen) :
    processInfo req (acc, seen) c =
      Except.ok (acc ++ [eraseKey c "error"], insert nm seen) ∧
    hasKey (eraseKey c "error") "error" = false := by
  constructor
  · simp only [processInfo]
    rw [if_pos he]
    rw [if_neg (by rw [hcomp]; decide)]
    simp only [hname]
    rw [if_neg (by simp [is_duplicate, hdup])]
  · exact hasKey_eraseKey_self c "error"

/-- Witness for C8 on a concrete candidate carrying error False. -/
theorem error_false_flag_stripped_witness :
    lookupKey errorFalseRec "error" = some (Value.bool false) ∧
    is_complete_site (eraseKey errorFalseRec "error") siteFieldnames = true ∧
    lookupKey (eraseKey errorFalseRec "error") "name" = some (Value.str "Alpha Hall") ∧
    Value.str "Alpha Hall" ∉ (∅ : Finset Value) ∧
    (processInfo siteFieldnames ([], ∅) errorFalseRec =
        Except.ok ([] ++ [eraseKey errorFalseRec "error"],
          insert (Value.str "Alpha Hall") ∅) ∧
      hasKey (eraseKey errorFalseRec "error") "error" = false) :=
  ⟨by decide, by decide, by decide, by decide,
    error_false_flag_stripped siteFieldnames [] ∅ errorFalseRec (Value.str "Alpha Hall")
      (by decide) (by decide) (by decide) (by decide)⟩

theorem processInfo_ok_of_name_required (req : List String) (hreq : "name" ∈ req)
    (st : List Candidate × Finset Value) (info : Candidate) :
    ∃ st2, processInfo req st info = Except.ok st2 := by
  simp only [processInfo]
  generalize (if lookupKey info "error" = some (Value.bool false) then eraseKey info "error" else info) = i2
  split
  · exact ⟨st, rfl⟩
  next hc =>
    have hc2 : is_complete_site i2 req = true := by
      rcases Bool.eq_false_or_eq_true (is_complete_site i2 req) with h1 | h1
      · exact h1
      · exact absurd h1 hc
    have hk : hasKey i2 "name" = true := is_complete_site_hasKey i2 req "name" hc2 hreq
    cases hl : lookupKey i2 "name" with
    | none => simp [hasKey, hl] at hk
    | some nm =>
      simp only [hl]
      split
      · exact ⟨st, rfl⟩
      · exact ⟨_, rfl⟩

theorem processAll_isOk_of_name_required (req : List String) (hreq : "name" ∈ req)
    (l : List Candidate) : ∀ st, ∃ st2, processAll req l st = Except.ok st2 := by
  induction l with
  | nil =>
    intro st
    exact ⟨st, rfl⟩
  | cons info rest ih =>
    intro st
    obtain ⟨st2, h2⟩ := processInfo_ok_of_name_required req hreq st info
    simp only [processAll, h2]
    exact ih st2

/-- C10: when name is among the required keys, the completeness check runs
first and guarantees the name subscript succeeds, so the call never
raises; when name is not required, a complete candidate lacking a name
key reaches the subscript and raises an unhandled KeyError, shown at a
concrete input. -/
theorem name_subscript_safety (p e : FetchResult) (req : List String)
    (seen : Finset Value) (h : "name" ∈ req) :
    exceptIsOk (fetch_and_process_page p e req seen) = true ∧
    fetch_and_process_page probeOkPage extractNoName ["location"] ∅ =
      Except.error ∅ := by
  constructor
  · simp only [fetch_and_process_page]
    split
    · rfl
    · split
      next extracted_data hsuc hcont =>
        split
        · rfl
        · obtain ⟨st2, h2⟩ := processAll_isOk_of_name_required req h extracted_data ([], seen)
          simp only [h2]
          split <;> rfl
      all_goals rfl
  · decide

/-- Witness for C10 with name among the required keys. -/
theorem name_subscript_safety_witness :
    "name" ∈ ["name"] ∧
    (exceptIsOk (fetch_and_process_page probeOkPage extractOne ["name"] ∅) = true ∧
      fetch_and_process_page probeOkPage extractNoName ["location"] ∅ =
        Except.error ∅) :=
  ⟨by decide, name_subscript_safety probeOkPage extractOne ["name"] ∅ (by decide)⟩

/-- C2 counterexample: a non-empty list holding a record with a key
outside the 7 schema fields makes the writer raise instead of writing one
row per record and reporting the count; only the header row is left. -/
theorem save_raises_not_saves_on_extra_key :
    save_keys_to_csv [extraKeyRec] none =
      (some [siteFieldnames], SaveOutcome.raisedValueError) ∧
    (save_keys_to_csv [extraKeyRec] none).2 ≠ SaveOutcome.saved 1 := by
  refine ⟨by decide, by decide⟩

/-- C2 amended: the empty list leaves the file untouched and reports
nothing to save; a non-empty list all of whose records have keys within
the 7 schema fields produces the header row of field names in declaration
order, then exactly one row per record in accumulation order, and the
count is reported. -/
theorem save_spec (infos : List Candidate) (fs : FileState) :
    (infos = [] → save_keys_to_csv infos fs = (fs, SaveOutcome.noData)) ∧
    (infos ≠ [] → (∀ r ∈ infos, ∀ kv ∈ r, kv.1 ∈ siteFieldnames) →
      save_keys_to_csv infos fs =
        (some (siteFieldnames ::
            infos.map (fun r => siteFieldnames.map (fun f => csvCell r f))),
          SaveOutcome.saved infos.length)) := by
  constructor
  · intro h
    simp [save_keys_to_csv, h]
  · intro h hkeys
    simp only [save_keys_to_csv]
    rw [if_neg h]
    rw [writeRowsFrom_all_ok siteFieldnames infos hkeys []]
    simp

/-- Witness for C2 amended: the empty list and a one-record list. -/
theorem save_spec_witness :
    save_keys_to_csv [] none = ((none : FileState), SaveOutcome.noData) ∧
    save_keys_to_csv [siteRec] none =
      (some (siteFieldnames ::
          [siteRec].map (fun r => siteFieldnames.map (fun f => csvCell r f))),
        SaveOutcome.saved ([siteRec].length)) :=
  ⟨(save_spec [] none).1 rfl,
    (save_spec [siteRec] none).2 (by decide) (by decide)⟩

/-- C9: a non-empty list holding, after any conforming records, a record
with a key outside the 7 schema fields makes the writer raise; the file
was already opened and truncated, so a header row plus the rows written
before the offending record are left behind regardless of the prior file
contents: persistence is not atomic. -/
theorem save_partial_on_extra_key (good rest : List Candidate) (bad : Candidate)
    (kv0 : String × Value) (fs : FileState)
    (hgood : ∀ r ∈ good, ∀ kv ∈ r, kv.1 ∈ siteFieldnames)
    (hin : kv0 ∈ bad) (hout : kv0.1 ∉ siteFieldnames) :
    save_keys_to_csv (good ++ bad :: rest) fs =
      (some (siteFieldnames ::
          good.map (fun r => siteFieldnames.map (fun f => csvCell r f))),
        SaveOutcome.raisedValueError) := by
  have hne : good ++ bad :: rest ≠ [] := by simp
  simp only [save_keys_to_csv]
  rw [if_neg hne]
  rw [writeRowsFrom_stops_at_bad siteFieldnames bad kv0 hin hout rest good hgood []]
  simp

/-- Witness for C9: one conforming record followed by a record retaining
an error key with value True. -/
theorem save_partial_on_extra_key_witness :
    (∀ r ∈ [siteRec], ∀ kv ∈ r, kv.1 ∈ siteFieldnames) ∧
    ("error", Value.bool true) ∈ extraKeyRec ∧
    ("error" : String) ∉ siteFieldnames ∧
    save_keys_to_csv ([siteRec] ++ extraKeyRec :: []) none =
      (some (siteFieldnames ::
          [siteRec].map (fun r => siteFieldnames.map (fun f => csvCell r f))),
        SaveOutcome.raisedValueError) :=
  ⟨by decide, by decide, by decide,
    save_partial_on_extra_key [siteRec] [] extraKeyRec ("error", Value.bool true) none
      (by decide) (by decide) (by decide)⟩

end Crawler
